import Mathlib

/-!
Shallow embedding of the mosdepth coverage-distribution aggregation engine
from `multiqc/modules/mosdepth/mosdepth.py` (`MultiqcModule.parse_cov_dist`,
lines 275-425, and `MultiqcModule.genstats_mediancov`, lines 444-451).

Python floats are modelled as rationals, Python dicts as insertion-ordered
association lists, and Python exceptions (`ValueError` raised by tuple
unpacking and by `float`/`int` conversion, `IndexError` raised by `pop` on
an empty list) as `Except` / `Option` values.
-/

namespace Mosdepth

/-- Python `ValueError`, as raised by tuple unpacking with the wrong arity and
by failing `float(...)` / `int(...)` conversions. -/
inductive PyErr where
  | valueError
  deriving DecidableEq, Repr

/-! ### Association lists modelling Python dicts -/

/-- Python dict lookup `d.get(k)` on an insertion-ordered association list. -/
def alGet {κ α : Type} [DecidableEq κ] (l : List (κ × α)) (k : κ) : Option α :=
  (l.find? (fun p => decide (p.1 = k))).map Prod.snd

/-- Python dict assignment `d[k] = v`: replaces in place when the key exists,
appends at the end otherwise (insertion order is preserved). -/
def alUpdate {κ α : Type} [DecidableEq κ] (k : κ) (v : α) : List (κ × α) → List (κ × α)
  | [] => [(k, v)]
  | p :: rest => if p.1 = k then (k, v) :: rest else p :: alUpdate k v rest

/-! ### String primitives

Structural models of the Python string operations used by the parser
(`line.split("\t")`, `"\t" in line`, `s.lower()`). -/

def splitTabAux : List Char → List Char → List String
  | [], acc => [String.mk acc.reverse]
  | '\t' :: rest, acc => String.mk acc.reverse :: splitTabAux rest []
  | c :: rest, acc => splitTabAux rest (c :: acc)

/-- Python `line.split("\t")`: splits at every tab, keeping empty fields. -/
def splitTab (line : String) : List String :=
  splitTabAux line.toList []

/-- Python `"\t" in line`. -/
def containsTab (line : String) : Bool :=
  line.toList.contains '\t'

/-- Python `s.lower()` (the contig names involved are ASCII). -/
def strToLower (s : String) : String :=
  String.mk (s.toList.map Char.toLower)

/-! ### Numeric field parsing

`float(s)` / `int(s)` on the plain decimal numerals that appear in mosdepth
reports; any string that is not a decimal numeral fails (`none`), modelling
the `ValueError` that Python raises. -/

/-- Value of a digit string, most significant digit first. -/
def natOfDigits (l : List Char) : Nat :=
  l.foldl (fun n c => 10 * n + (c.toNat - 48)) 0

def allDigits (l : List Char) : Bool :=
  l.all (fun c => c.isDigit)

/-- Split at the first `.`, returning the part before it and, when a dot is
present, the part after it. -/
def splitDot : List Char → List Char × Option (List Char)
  | [] => ([], none)
  | '.' :: rest => ([], some rest)
  | c :: rest =>
    let pr := splitDot rest
    (c :: pr.1, pr.2)

def parseUnsigned? (l : List Char) : Option ℚ :=
  match splitDot l with
  | (a, none) =>
    if a ≠ [] ∧ allDigits a then some (natOfDigits a) else none
  | (a, some b) =>
    if (a ≠ [] ∨ b ≠ []) ∧ allDigits a ∧ allDigits b then
      some ((natOfDigits a : ℚ) + (natOfDigits b : ℚ) / (10 ^ b.length))
    else none

/-- Python `float(s)` restricted to plain decimal numerals. -/
def parseFloat? (s : String) : Option ℚ :=
  match s.toList with
  | '-' :: rest => (parseUnsigned? rest).map (fun q => -q)
  | '+' :: rest => parseUnsigned? rest
  | l => parseUnsigned? l

def parseIntNat? (l : List Char) : Option Int :=
  if l ≠ [] ∧ allDigits l then some (natOfDigits l : Int) else none

/-- Python `int(s)` restricted to plain decimal numerals. -/
def parseInt? (s : String) : Option Int :=
  match s.toList with
  | '-' :: rest => (parseIntNat? rest).map (fun n => -n)
  | '+' :: rest => parseIntNat? rest
  | l => parseIntNat? l

/-! ### `fnmatch.fnmatch` (POSIX, case-sensitive shell-style wildcards)

The pattern is compiled to a token list (`*`, `?`, `[seq]` / `[!seq]`,
literal characters; an unclosed `[` is a literal, as in `fnmatch.translate`)
and matched against the whole contig name. -/

inductive GlobTok where
  | star
  | anyChar
  | lit (c : Char)
  | cls (neg : Bool) (body : List Char)
  deriving DecidableEq, Repr

/-- Scan a character-class body up to the closing `]`. -/
def scanClass : List Char → Option (List Char × List Char)
  | [] => none
  | ']' :: rest => some ([], rest)
  | c :: rest => (scanClass rest).map (fun pr => (c :: pr.1, pr.2))

/-- Class body after `[`, once a possible `!` has been consumed: a `]` in the
leading position belongs to the body. -/
def parseClsBody (l : List Char) : Option (List Char × List Char) :=
  match l with
  | ']' :: r2 => (scanClass r2).map (fun pr => ((']' :: pr.1 : List Char), pr.2))
  | r => scanClass r

/-- The part after `[`: optional negation `!`, then the body up to `]`. -/
def parseCls (l : List Char) : Option (Bool × List Char × List Char) :=
  match l with
  | '!' :: rest => (parseClsBody rest).map (fun pr => (true, pr.1, pr.2))
  | rest => (parseClsBody rest).map (fun pr => (false, pr.1, pr.2))

/-- Pattern compilation, with explicit structural fuel.  Every step consumes
at least one character, so fuel equal to the pattern length never runs out;
the fuel keeps the recursion structural (hence fully evaluable). -/
def compileGlobFuel : Nat → List Char → List GlobTok
  | _, [] => []
  | 0, _ :: _ => []
  | fuel + 1, '*' :: rest => GlobTok.star :: compileGlobFuel fuel rest
  | fuel + 1, '?' :: rest => GlobTok.anyChar :: compileGlobFuel fuel rest
  | fuel + 1, '[' :: rest =>
    match parseCls rest with
    | some (neg, body, after) => GlobTok.cls neg body :: compileGlobFuel fuel after
    | none => GlobTok.lit '[' :: compileGlobFuel fuel rest
  | fuel + 1, c :: rest => GlobTok.lit c :: compileGlobFuel fuel rest

def compileGlob (l : List Char) : List GlobTok :=
  compileGlobFuel l.length l

/-- Membership of a character in a class body, with `a-b` ranges; a trailing
`-` is a literal. -/
def classMatch (c : Char) : List Char → Bool
  | [] => false
  | a :: '-' :: b :: rest => (decide (a ≤ c) && decide (c ≤ b)) || classMatch c rest
  | a :: rest => decide (c = a) || classMatch c rest

/-- Anchored matching of a compiled pattern against a whole name; `*` matches
any (possibly empty) sequence of characters. -/
def matchToks : List GlobTok → List Char → Bool
  | [], s => s.isEmpty
  | GlobTok.star :: ts, s => s.tails.any (fun suf => matchToks ts suf)
  | GlobTok.anyChar :: ts, s =>
    match s with
    | [] => false
    | _ :: s' => matchToks ts s'
  | GlobTok.lit c :: ts, s =>
    match s with
    | [] => false
    | d :: s' => decide (c = d) && matchToks ts s'
  | GlobTok.cls neg body :: ts, s =>
    match s with
    | [] => false
    | d :: s' => (classMatch d body != neg) && matchToks ts s'

/-- `fnmatch.fnmatch(name, pattern)` on a POSIX system (case-sensitive). -/
def fnmatch (name pattern : String) : Bool :=
  matchToks (compileGlob pattern.toList) name.toList

/-! ### Configuration (`read_config`, lines 18-58, after defaulting) -/

structure Config where
  include_contigs : List String
  exclude_contigs : List String
  xchr : Option String
  ychr : Option String
  perchrom_fraction_cutoff : ℚ
  deriving DecidableEq, Repr

/-- The resolved configuration produced by `read_config` when no user
configuration is present. -/
def cfg0 : Config :=
  { include_contigs := []
    exclude_contigs := []
    xchr := none
    ychr := none
    perchrom_fraction_cutoff := 1 / 1000 }

/-! ### Distribution-file parsing (lines 292-338) -/

/-- The two mutable aggregation dicts of `parse_cov_dist` that the
distribution scan fills: `cumcov_dist_data` and `perchrom_avg_data`. -/
structure GState where
  cumcov : List (String × List (Int × ℚ))
  perchrom : List (String × List (String × ℚ))
  deriving DecidableEq, Repr

def GState.init : GState := ⟨[], []⟩

/-- Lines 302-335, after the three tab-separated fields have been unpacked:
`float` on the fraction, the zero-fraction skip, the `total` branch feeding
`cumcov_dist_data`, and the per-contig branch with exclude/include glob
filtering feeding `perchrom_avg_data`. -/
def processFields (cfg : Config) (sName : String) (st : GState)
    (contig cutoffReads basesFraction : String) : Except PyErr GState :=
  match parseFloat? basesFraction with
  | none => .error .valueError
  | some frac =>
    if frac = 0 then .ok st
    else if contig = "total" then
      match parseInt? cutoffReads with
      | none => .error .valueError
      | some x =>
        let d0 := (alGet st.cumcov sName).getD []
        .ok { st with cumcov := alUpdate sName (alUpdate x (100 * frac) d0) st.cumcov }
    else if cfg.exclude_contigs.any (fun pat => fnmatch contig pat) then
      .ok st
    else if decide (0 < cfg.include_contigs.length)
        && !(cfg.include_contigs.any (fun pat => fnmatch contig pat)) then
      .ok st
    else
      let e0 := (alGet st.perchrom sName).getD []
      let avg := (alGet e0 contig).getD 0 + frac
      .ok { st with perchrom := alUpdate sName (alUpdate contig avg e0) st.perchrom }

/-- Lines 299-335 for one line: lines without a tab are skipped; a line with
a tab is split on tabs and must unpack into exactly three fields. -/
def processDistLine (cfg : Config) (sName : String) (st : GState) (line : String) :
    Except PyErr GState :=
  if !(containsTab line) then .ok st
  else
    match splitTab line with
    | [contig, cutoffReads, basesFraction] =>
      processFields cfg sName st contig cutoffReads basesFraction
    | _ => .error .valueError

def processDistLinesFor (cfg : Config) (sName : String) (st : GState)
    (lines : List String) : Except PyErr GState :=
  lines.foldlM (fun st line => processDistLine cfg sName st line) st

/-- One discovered `*_dist` report: the cleaned sample name and its lines. -/
structure DistFile where
  sName : String
  lines : List String
  deriving DecidableEq, Repr

/-- Lines 294-297: a file whose sample already appears in `cumcov_dist_data`
is skipped entirely (both region and global might exist, prioritizing
region). -/
def processFile (cfg : Config) (st : GState) (f : DistFile) : Except PyErr GState :=
  if (alGet st.cumcov f.sName).isSome then .ok st
  else processDistLinesFor cfg f.sName st f.lines

/-- Lines 292-338: the scan over the two scopes, region files first. -/
def parseCovDist (cfg : Config) (regionFiles globalFiles : List DistFile) :
    Except PyErr GState :=
  (regionFiles ++ globalFiles).foldlM (fun st f => processFile cfg st f) GState.init

/-! ### Contig coverage cutoff (lines 340-366) -/

def allContigEntries (perchrom : List (String × List (String × ℚ))) :
    List (String × ℚ) :=
  (perchrom.map Prod.snd).flatten

/-- Lines 342-347: `total_cov_per_contig[contig]`. -/
def totalCovPerContig (perchrom : List (String × List (String × ℚ)))
    (contig : String) : ℚ :=
  (((allContigEntries perchrom).filter (fun e => decide (e.1 = contig))).map Prod.snd).sum

/-- Lines 343-347: `total_cov`, the grand total over all samples and contigs. -/
def totalCov (perchrom : List (String × List (String × ℚ))) : ℚ :=
  ((allContigEntries perchrom).map Prod.snd).sum

/-- Line 350: `req_cov = float(total_cov) * cfg["perchrom_fraction_cutoff"]`. -/
def reqCov (cfg : Config) (perchrom : List (String × List (String × ℚ))) : ℚ :=
  totalCov perchrom * cfg.perchrom_fraction_cutoff

/-- Lines 351-356: membership in `passing_contigs` (strictly greater than). -/
def contigPasses (cfg : Config) (perchrom : List (String × List (String × ℚ)))
    (contig : String) : Bool :=
  decide (reqCov cfg perchrom < totalCovPerContig perchrom contig)

/-- Lines 358-366: `filtered_perchrom_avg_data`; a sample whose contigs are
all rejected never receives a key in the new defaultdict. -/
def filterPerchrom (cfg : Config) (perchrom : List (String × List (String × ℚ))) :
    List (String × List (String × ℚ)) :=
  (perchrom.map (fun p => (p.1, p.2.filter (fun e => contigPasses cfg perchrom e.1)))).filter
    (fun p => !p.2.isEmpty)

/-- The contig names that occur (in some sample) in a per-contig table. -/
def contigsOf (perchrom : List (String × List (String × ℚ))) : List String :=
  (allContigEntries perchrom).map Prod.fst

/-! ### X/Y coverage pairs (lines 377-397) -/

/-- Lines 383-388: an explicitly configured (truthy) `xchr` is compared by
string equality; otherwise the heuristic names `x` / `chrx` are matched
case-insensitively. -/
def xMatches (cfg : Config) (contig : String) : Bool :=
  match cfg.xchr with
  | some xc =>
    if xc = "" then strToLower contig == "x" || strToLower contig == "chrx"
    else xc == contig
  | none => strToLower contig == "x" || strToLower contig == "chrx"

/-- Lines 389-394, same for `ychr` / `y` / `chry`. -/
def yMatches (cfg : Config) (contig : String) : Bool :=
  match cfg.ychr with
  | some yc =>
    if yc = "" then strToLower contig == "y" || strToLower contig == "chry"
    else yc == contig
  | none => strToLower contig == "y" || strToLower contig == "chry"

/-- The repeated overwrite `x_cov = cov` keeps the last matching contig;
the initial `False` is `none`. -/
def lastMatch (f : String → Bool) (entries : List (String × ℚ)) : Option ℚ :=
  entries.foldl (fun acc e => if f e.1 then some e.2 else acc) none

/-- Lines 379-397 for one sample: `if x_cov and y_cov` — a coverage of `0`
is falsy, so the pair is only emitted when both values are present and
nonzero. -/
def xyFor (cfg : Config) (entries : List (String × ℚ)) : Option (ℚ × ℚ) :=
  match lastMatch (xMatches cfg) entries, lastMatch (yMatches cfg) entries with
  | some a, some b => if a ≠ 0 ∧ b ≠ 0 then some (a, b) else none
  | _, _ => none

/-- Lines 377-397: `xy_cov`, built sample by sample from the (uncorrected)
filtered per-contig averages; a sample without both matches is absent. -/
def computeXY (cfg : Config) : List (String × List (String × ℚ)) → List (String × (ℚ × ℚ))
  | [] => []
  | p :: rest =>
    match xyFor cfg p.2 with
    | some xy => (p.1, xy) :: computeXY cfg rest
    | none => computeXY cfg rest

/-! ### The −1 correction (lines 399-404) -/

/-- Lines 402-404: every surviving per-contig accumulated value has `1`
subtracted (the always-100%-at-0x bucket). -/
def correctPerchrom (perchrom : List (String × List (String × ℚ))) :
    List (String × List (String × ℚ)) :=
  perchrom.map (fun p => (p.1, p.2.map (fun e => (e.1, e.2 - 1))))

/-! ### Absolute coverage distribution (lines 406-424) -/

/-- `sorted(s_cumcov_dist.items())` — ascending by depth threshold (the keys
of a dict are distinct, so comparing by key is the full tuple order). -/
def sortByKey (l : List (Int × ℚ)) : List (Int × ℚ) :=
  l.insertionSort (fun a b => a.1 ≤ b.1)

/-- The `while cumcov_dist: ... pop()` walk (lines 420-423), after the first
`pop` has removed the entry with the highest threshold: each remaining entry
`(x, cumcov)`, taken in descending threshold order, is assigned
`cumcov - prev_cumcov`. -/
def absWalk : (Int × ℚ) → List (Int × ℚ) → List (Int × ℚ)
  | _, [] => []
  | prev, q :: rest => (q.1, q.2 - prev.2) :: absWalk q rest

/-- Lines 407-423 for one sample: the derived absolute distribution, in the
insertion order produced by the loop (descending thresholds).  `none` models
the `IndexError` that `pop` would raise on an empty series. -/
def absCov? (cum : List (Int × ℚ)) : Option (List (Int × ℚ)) :=
  match (sortByKey cum).reverse with
  | [] => none
  | p :: rest => some (absWalk p rest)

/-! ### Median coverage (`genstats_mediancov`, lines 444-451) -/

/-- Lines 446-450: the first entry, in the series' insertion order, whose
cumulative percentage is at least 50; `none` when no entry reaches 50. -/
def medianCoverage (d : List (Int × ℚ)) : Option Int :=
  (d.find? (fun p => decide (50 ≤ p.2))).map Prod.fst

/-! ## Supporting lemmas -/

theorem alGet_alUpdate {κ α : Type} [DecidableEq κ] (k k' : κ) (v : α) (l : List (κ × α)) :
    alGet (alUpdate k v l) k' = if k' = k then some v else alGet l k' := by
  induction l with
  | nil =>
    by_cases h : k' = k
    · subst h; simp [alGet, alUpdate, List.find?]
    · simp [alGet, alUpdate, List.find?, Ne.symm h, h]
  | cons p rest ih =>
    by_cases hpk : p.1 = k
    · simp only [alUpdate, if_pos hpk]
      by_cases h : k' = k
      · subst h; simp [alGet, List.find?]
      · simp [alGet, List.find?, Ne.symm h, h, hpk ▸ (Ne.symm h)]
    · simp only [alUpdate, if_neg hpk]
      by_cases hpk' : p.1 = k'
      · have hk : ¬ k' = k := fun hh => hpk (hpk'.trans hh)
        simp [alGet, List.find?, hpk', hk]
      · simp only [alGet, List.find?] at ih ⊢
        simp [hpk', ih]

theorem alUpdate_ne_nil {κ α : Type} [DecidableEq κ] (k : κ) (v : α) (l : List (κ × α)) :
    alUpdate k v l ≠ [] := by
  cases l with
  | nil => simp [alUpdate]
  | cons p rest =>
    by_cases h : p.1 = k <;> simp [alUpdate, h]

/-- A property preserved by each successful step of a fold in the `Except`
monad is preserved by the whole fold. -/
theorem foldlM_ok_preserves {σ α : Type} (P : σ → Prop) (step : σ → α → Except PyErr σ)
    (hstep : ∀ s a s', step s a = .ok s' → P s → P s') :
    ∀ (l : List α) (s s' : σ), l.foldlM step s = .ok s' → P s → P s' := by
  intro l
  induction l with
  | nil =>
    intro s s' h hp
    simp only [List.foldlM_nil, pure] at h
    cases h
    exact hp
  | cons a l ih =>
    intro s s' h hp
    rw [List.foldlM_cons] at h
    cases hstep1 : step s a with
    | error e => rw [hstep1] at h; cases h
    | ok s1 =>
      rw [hstep1] at h
      exact ih s1 s' h (hstep s a s1 hstep1 hp)

theorem absWalk_map_snd_sum (l : List (Int × ℚ)) :
    ∀ p : Int × ℚ, ((absWalk p l).map Prod.snd).sum = (l.getLastD p).2 - p.2 := by
  induction l with
  | nil => intro p; simp [absWalk]
  | cons q rest ih =>
    intro p
    simp only [absWalk, List.map_cons, List.sum_cons, ih q, List.getLastD_cons]
    ring

instance : IsTotal (Int × ℚ) (fun a b => a.1 ≤ b.1) :=
  ⟨fun a b => le_total a.1 b.1⟩

instance : IsTrans (Int × ℚ) (fun a b => a.1 ≤ b.1) :=
  ⟨fun _ _ _ h h' => le_trans h h'⟩

theorem sortByKey_perm (l : List (Int × ℚ)) : (sortByKey l).Perm l :=
  List.perm_insertionSort _ l

theorem sortByKey_length (l : List (Int × ℚ)) : (sortByKey l).length = l.length :=
  (sortByKey_perm l).length_eq

/-- `sorted(...)` really sorts by ascending depth threshold: the head of the
result is the entry at the lowest retained threshold and the last element is
the entry at the highest. -/
theorem sortByKey_sorted (l : List (Int × ℚ)) :
    (sortByKey l).Sorted (fun a b => a.1 ≤ b.1) :=
  List.sorted_insertionSort _ l

/-- Numeric values of the ASCII digit characters, for evaluating the digit
parser on concrete inputs. -/
theorem charDigitVals :
    '0'.toNat = 48 ∧ '1'.toNat = 49 ∧ '2'.toNat = 50 ∧ '3'.toNat = 51 ∧ '4'.toNat = 52
    ∧ '5'.toNat = 53 ∧ '6'.toNat = 54 ∧ '7'.toNat = 55 ∧ '8'.toNat = 56 ∧ '9'.toNat = 57 := by
  decide

/-! ## Claims -/

/-- The `S1` distribution lines of the end-to-end scenario. -/
def linesS1 : List String := ["total\t2\t0.00", "total\t1\t0.40", "total\t0\t1.00"]

/-- C1, counterexample: on the scenario input the engine's absolute
distribution has NO entry at the highest retained threshold 1 — the first
`pop` of the differencing walk discards it — contradicting the claimed
`absolute[1] = 40.0`. -/
theorem mosdepth_C1_counterexample :
    (processDistLinesFor cfg0 "S1" GState.init linesS1).map
      (fun st => (alGet st.cumcov "S1").map (fun d => alGet ((absCov? d).getD []) 1))
      = .ok (some none) := by
  norm_num +decide [processDistLinesFor, linesS1, processDistLine, processFields,
    containsTab, splitTab, splitTabAux, parseFloat?, parseInt?, parseUnsigned?,
    parseIntNat?, splitDot, allDigits, natOfDigits, alGet, alUpdate, GState.init, cfg0,
    List.find?, List.foldlM, charDigitVals.1, charDigitVals.2.1, charDigitVals.2.2.1,
    charDigitVals.2.2.2.1, charDigitVals.2.2.2.2.1, bind, Except.bind, pure, Except.pure,
    Except.map, absCov?, sortByKey, List.insertionSort, List.orderedInsert, absWalk]

/-- C1, amended: the scenario input yields the cumulative series
{1: 40.0, 0: 100.0} (the zero-fraction row at threshold 2 dropped) as
claimed, but the derived absolute distribution contains an entry for every
retained threshold EXCEPT the highest: it is exactly {0: 60.0}, summing to
60.0 (the cumulative percentage at the lowest threshold minus the one at the
highest). -/
theorem mosdepth_C1_theorem :
    (processDistLinesFor cfg0 "S1" GState.init linesS1).map
      (fun st => (alGet st.cumcov "S1").map (fun d => (d, absCov? d)))
      = .ok (some ([(1, 40), (0, 100)], some [(0, 60)])) := by
  norm_num +decide [processDistLinesFor, linesS1, processDistLine, processFields,
    containsTab, splitTab, splitTabAux, parseFloat?, parseInt?, parseUnsigned?,
    parseIntNat?, splitDot, allDigits, natOfDigits, alGet, alUpdate, GState.init, cfg0,
    List.find?, List.foldlM, charDigitVals.1, charDigitVals.2.1, charDigitVals.2.2.1,
    charDigitVals.2.2.2.1, charDigitVals.2.2.2.2.1, bind, Except.bind, pure, Except.pure,
    Except.map, absCov?, sortByKey, List.insertionSort, List.orderedInsert, absWalk]

/-- C2: for a retained cumulative series with at least two entries the values
of the derived absolute distribution sum exactly (hence within any floating
tolerance) to the cumulative percentage at the lowest retained threshold
(the head of the ascending-sorted series) minus the cumulative percentage at
the highest retained threshold (its last element); a series with exactly one
entry yields an empty absolute series. -/
theorem mosdepth_C2 (cum : List (Int × ℚ)) :
    (2 ≤ cum.length →
      (((absCov? cum).getD []).map Prod.snd).sum
        = ((sortByKey cum).headD (0, 0)).2 - ((sortByKey cum).getLastD (0, 0)).2)
    ∧ (cum.length = 1 → absCov? cum = some []) := by
  constructor
  · intro h2
    have hlen : (sortByKey cum).length = cum.length := sortByKey_length cum
    cases hr : (sortByKey cum).reverse with
    | nil =>
      exfalso
      have hnil : sortByKey cum = [] := List.reverse_eq_nil_iff.mp hr
      rw [hnil] at hlen
      simp at hlen
      omega
    | cons p rest =>
      have habs : absCov? cum = some (absWalk p rest) := by
        simp only [absCov?, hr]
      have hs : sortByKey cum = rest.reverse ++ [p] := by
        rw [← List.reverse_reverse (sortByKey cum), hr, List.reverse_cons]
      have hrest : rest ≠ [] := by
        intro hnil
        rw [hnil] at hs
        have : cum.length = 1 := by rw [← hlen, hs]; rfl
        omega
      cases hq : rest.getLast? with
      | none => exact absurd (List.getLast?_eq_none_iff.mp hq) hrest
      | some q =>
        have hhead : (sortByKey cum).headD (0, 0) = q := by
          rw [List.headD_eq_head?, hs, List.head?_append, List.head?_reverse, hq]
          rfl
        have hlast : (sortByKey cum).getLastD (0, 0) = p := by
          rw [List.getLastD_eq_getLast?, hs, List.getLast?_concat]
          rfl
        rw [habs, hhead, hlast]
        simp only [Option.getD_some]
        rw [absWalk_map_snd_sum rest p, List.getLastD_eq_getLast?, hq]
        rfl
  · intro h1
    have hlen : (sortByKey cum).length = 1 := by rw [sortByKey_length]; exact h1
    obtain ⟨a, ha⟩ := List.length_eq_one.mp hlen
    simp only [absCov?, ha, List.reverse_cons, List.reverse_nil, List.nil_append]
    rfl

/-- C3, counterexample: a malformed middle line (`bad\tline` has a tab but
only two fields) aborts the sample's parse with a `ValueError` instead of
being skipped: the valid third line is never reached and no state is
produced. -/
theorem mosdepth_C3_counterexample :
    processDistLinesFor cfg0 "S1" GState.init
      ["total\t1\t0.40", "bad\tline", "total\t0\t1.00"] = .error .valueError := by
  norm_num +decide [processDistLinesFor, processDistLine, processFields,
    containsTab, splitTab, splitTabAux, parseFloat?, parseInt?, parseUnsigned?,
    parseIntNat?, splitDot, allDigits, natOfDigits, alGet, alUpdate, GState.init, cfg0,
    List.find?, List.foldlM, charDigitVals.1, charDigitVals.2.1, charDigitVals.2.2.1,
    charDigitVals.2.2.2.1, charDigitVals.2.2.2.2.1, bind, Except.bind, pure, Except.pure]

/-- C3, amended: the parser skips only lines without a tab; a line that does
contain a tab but fails to parse — wrong field count when split on tabs, or
a fraction field that is not numeric — raises a `ValueError` that aborts the
parse of the whole sample (whatever lines precede or follow it), rather than
being skipped. -/
theorem mosdepth_C3_theorem (cfg : Config) (sName : String) (st : GState)
    (pre post : List String) (line : String)
    (hT : containsTab line = true)
    (hM : ∀ c r f, splitTab line = [c, r, f] → parseFloat? f = none) :
    processDistLinesFor cfg sName st (pre ++ line :: post) = .error .valueError := by
  unfold processDistLinesFor
  rw [List.foldlM_append]
  have hline : ∀ st1 : GState, processDistLine cfg sName st1 line = .error .valueError := by
    intro st1
    unfold processDistLine
    rw [hT]
    cases hsp : splitTab line with
    | nil => simp
    | cons c1 t1 =>
      cases t1 with
      | nil => simp
      | cons c2 t2 =>
        cases t2 with
        | nil => simp
        | cons c3 t3 =>
          cases t3 with
          | nil =>
            have hf := hM c1 c2 c3 hsp
            simp [processFields, hf]
          | cons c4 t4 => simp
  cases hpre : pre.foldlM (fun st line => processDistLine cfg sName st line) st with
  | error e => cases e; rfl
  | ok st1 =>
    simp only [bind, Except.bind]
    rw [List.foldlM_cons, hline st1]
    rfl

/-- C3, witness: a three-field line with a non-numeric fraction aborts a
parse that has valid lines before and after it. -/
theorem mosdepth_C3_witness :
    processDistLinesFor cfg0 "S1" GState.init
      (["total\t1\t0.40"] ++ "total\tfoo\tbar" :: ["total\t0\t1.00"]) = .error .valueError :=
  mosdepth_C3_theorem cfg0 "S1" GState.init ["total\t1\t0.40"] ["total\t0\t1.00"]
    "total\tfoo\tbar" (by rfl)
    (by
      intro c r f h
      rw [show splitTab "total\tfoo\tbar" = ["total", "foo", "bar"] from rfl] at h
      injection h with h1 h
      injection h with h2 h
      injection h with h3 _
      exact h3 ▸ rfl)

/-- `find?` returns `some b` exactly when the list splits as
`l₁ ++ b :: l₂` with the predicate false on every element of `l₁`. -/
theorem find?_split {α : Type} (p : α → Bool) (b : α) :
    ∀ l : List α, l.find? p = some b ↔
      p b = true ∧ ∃ l₁ l₂, l = l₁ ++ b :: l₂ ∧ ∀ a ∈ l₁, p a = false := by
  intro l
  induction l with
  | nil => simp
  | cons x l ih =>
    by_cases hx : p x = true
    · rw [List.find?_cons_of_pos _ hx]
      constructor
      · intro h
        injection h with hxb
        subst hxb
        exact ⟨hx, [], l, rfl, by simp⟩
      · rintro ⟨hb, l₁, l₂, hl, hall⟩
        cases l₁ with
        | nil =>
          simp only [List.nil_append] at hl
          injection hl with h1 h2
          rw [h1]
        | cons y l₁' =>
          simp only [List.cons_append] at hl
          injection hl with h1 h2
          exact absurd hx (by rw [h1]; simp [hall y (by simp)])
    · have hxf : p x = false := by
        cases h' : p x
        · rfl
        · exact absurd h' hx
      rw [List.find?_cons_of_neg _ hx, ih]
      constructor
      · rintro ⟨hb, l₁, l₂, hl, hall⟩
        refine ⟨hb, x :: l₁, l₂, by rw [hl, List.cons_append], ?_⟩
        intro a ha
        rcases List.mem_cons.mp ha with h | h
        · rw [h]; exact hxf
        · exact hall a h
      · rintro ⟨hb, l₁, l₂, hl, hall⟩
        cases l₁ with
        | nil =>
          simp only [List.nil_append] at hl
          injection hl with h1 h2
          exact absurd (h1 ▸ hb) hx
        | cons y l₁' =>
          simp only [List.cons_append] at hl
          injection hl with h1 h2
          exact ⟨hb, l₁', l₂, h2, fun a ha => hall a (List.mem_cons_of_mem _ ha)⟩

/-- C8: `medianCoverage` is `some t` exactly when, in the series' insertion
(iteration) order, the first entry whose cumulative percentage reaches 50 is
at threshold `t`; it is `none` exactly when no entry reaches 50. -/
theorem mosdepth_C8 (d : List (Int × ℚ)) (t : Int) :
    (medianCoverage d = some t ↔
      ∃ pre c post, d = pre ++ (t, c) :: post ∧ 50 ≤ c ∧ ∀ q ∈ pre, q.2 < 50)
    ∧ (medianCoverage d = none ↔ ∀ q ∈ d, q.2 < 50) := by
  constructor
  · unfold medianCoverage
    rw [Option.map_eq_some']
    constructor
    · rintro ⟨b, hb, hbt⟩
      rw [find?_split] at hb
      obtain ⟨hpb, l₁, l₂, hl, hall⟩ := hb
      refine ⟨l₁, b.2, l₂, ?_, ?_, ?_⟩
      · rw [hl]
        obtain ⟨b1, b2⟩ := b
        simp only at hbt
        rw [hbt]
      · exact of_decide_eq_true hpb
      · intro q hq
        have h := hall q hq
        have h' : ¬ (50 ≤ q.2) := by
          intro hle
          rw [decide_eq_true hle] at h
          cases h
        exact lt_of_not_le h'
    · rintro ⟨pre, c, post, hd, hc, hpre⟩
      refine ⟨(t, c), ?_, rfl⟩
      rw [find?_split]
      refine ⟨decide_eq_true hc, pre, post, hd, ?_⟩
      intro a ha
      have := hpre a ha
      simp [decide_eq_false (not_le_of_lt this)]
  · unfold medianCoverage
    rw [Option.map_eq_none', List.find?_eq_none]
    constructor
    · intro h q hq
      have := h q hq
      simp only [decide_eq_true_eq] at this
      exact lt_of_not_le this
    · intro h q hq
      simp only [decide_eq_true_eq]
      exact not_le_of_lt (h q hq)

/-- C2, witness: a two-entry series and a one-entry series. -/
theorem mosdepth_C2_witness :
    ((((absCov? [((0 : Int), (100 : ℚ)), ((2 : Int), (30 : ℚ))]).getD []).map Prod.snd).sum
      = ((sortByKey [((0 : Int), (100 : ℚ)), ((2 : Int), (30 : ℚ))]).headD (0, 0)).2
        - ((sortByKey [((0 : Int), (100 : ℚ)), ((2 : Int), (30 : ℚ))]).getLastD (0, 0)).2)
    ∧ absCov? [((5 : Int), (60 : ℚ))] = some [] :=
  ⟨(mosdepth_C2 [((0 : Int), (100 : ℚ)), ((2 : Int), (30 : ℚ))]).1 (by decide),
   (mosdepth_C2 [((5 : Int), (60 : ℚ))]).2 (by decide)⟩

/-- A region report for sample `S` that contains a per-contig row but no
(nonzero) `total` row. -/
def regionS : DistFile := ⟨"S", ["1\t0\t1.00"]⟩

/-- A global report for the same sample `S`. -/
def globalS : DistFile := ⟨"S", ["1\t0\t1.00", "total\t0\t1.00"]⟩

/-- C5, counterexample: sample `S` has a region report (one per-contig row,
no `total` rows), yet its global report is parsed too: contig `1`
accumulates `1.0` from EACH report, ending at `2.0`, and the global report
alone populates the cumulative series — the global variant was not ignored. -/
theorem mosdepth_C5_counterexample :
    (parseCovDist cfg0 [regionS] [globalS]).map
      (fun st => (alGet st.perchrom "S", alGet st.cumcov "S"))
      = .ok (some [("1", 2)], some [(0, 100)]) := by
  norm_num +decide [parseCovDist, processFile, regionS, globalS, processDistLinesFor,
    processDistLine, processFields, containsTab, splitTab, splitTabAux, parseFloat?,
    parseInt?, parseUnsigned?, parseIntNat?, splitDot, allDigits, natOfDigits, alGet,
    alUpdate, GState.init, cfg0, List.find?, List.foldlM, charDigitVals.1,
    charDigitVals.2.1, fnmatch, bind, Except.bind, pure, Except.pure, Except.map]

/-- C5, amended: a later-scanned report is ignored if and only if its sample
already has at least one retained cumulative (`total`) entry from an
earlier report; in particular a region report whose `total` rows are all
dropped does not suppress the sample's global report. -/
theorem mosdepth_C5_theorem (cfg : Config) (st : GState) (f : DistFile)
    (h : (alGet st.cumcov f.sName).isSome = true) :
    processFile cfg st f = .ok st := by
  unfold processFile
  rw [h]
  simp

/-- C5, witness: a global file for a sample whose cumulative series is
already populated is skipped without touching the state. -/
theorem mosdepth_C5_witness :
    processFile cfg0 ⟨[("S", [(0, 100)])], []⟩ globalS = .ok ⟨[("S", [(0, 100)])], []⟩ :=
  mosdepth_C5_theorem cfg0 ⟨[("S", [(0, 100)])], []⟩ globalS (by rfl)

/-- C9: a per-contig row whose contig matches some exclude pattern leaves
the state untouched (it is dropped), regardless of any include patterns —
the exclude check runs first. -/
theorem mosdepth_C9 (cfg : Config) (sName : String) (st : GState)
    (contig cutoffReads basesFraction : String) (v : ℚ)
    (hx : cfg.exclude_contigs.any (fun pat => fnmatch contig pat) = true)
    (ht : contig ≠ "total")
    (hf : parseFloat? basesFraction = some v) :
    processFields cfg sName st contig cutoffReads basesFraction = .ok st := by
  by_cases h0 : v = 0
  · simp [processFields, hf, h0]
  · simp [processFields, hf, h0, ht, hx]

/-- A configuration whose exclude and include patterns both match `chr1`. -/
def cfg9 : Config :=
  { cfg0 with exclude_contigs := ["chr*"], include_contigs := ["chr1"] }

/-- C9, witness: `chr1` matches both the exclude glob `chr*` and the include
glob `chr1`; the row is dropped (exclude wins). -/
theorem mosdepth_C9_witness :
    processFields cfg9 "S" GState.init "chr1" "0" "1" = .ok GState.init
    ∧ cfg9.include_contigs.any (fun pat => fnmatch "chr1" pat) = true :=
  ⟨mosdepth_C9 cfg9 "S" GState.init "chr1" "0" "1" ((1 : ℕ) : ℚ)
    (by rfl) (by decide) (by rfl), by rfl⟩

/-- The nonemptiness invariant of `cumcov_dist_data`: every sample key that
exists maps to a non-empty series. -/
def CumcovNonempty (st : GState) : Prop :=
  ∀ s d, alGet st.cumcov s = some d → d ≠ []

theorem processFields_nonempty (cfg : Config) (sName : String) (st : GState)
    (contig cutoffReads basesFraction : String) (st' : GState)
    (h : processFields cfg sName st contig cutoffReads basesFraction = .ok st')
    (hinv : CumcovNonempty st) : CumcovNonempty st' := by
  unfold processFields at h
  split at h
  · cases h
  · split at h
    · cases h; exact hinv
    · split at h
      · split at h
        · cases h
        · cases h
          intro s d hd
          rw [alGet_alUpdate] at hd
          split at hd
          · injection hd with hd
            rw [← hd]
            exact alUpdate_ne_nil _ _ _
          · exact hinv s d hd
      · split at h
        · cases h; exact hinv
        · split at h
          · cases h; exact hinv
          · cases h; exact hinv

theorem processDistLine_nonempty (cfg : Config) (sName : String) (st : GState)
    (line : String) (st' : GState)
    (h : processDistLine cfg sName st line = .ok st')
    (hinv : CumcovNonempty st) : CumcovNonempty st' := by
  unfold processDistLine at h
  split at h
  · cases h; exact hinv
  · split at h
    · exact processFields_nonempty cfg sName st _ _ _ st' h hinv
    · cases h

theorem processFile_nonempty (cfg : Config) (st : GState) (f : DistFile) (st' : GState)
    (h : processFile cfg st f = .ok st') (hinv : CumcovNonempty st) : CumcovNonempty st' := by
  unfold processFile at h
  split at h
  · cases h; exact hinv
  · exact foldlM_ok_preserves CumcovNonempty
      (fun st line => processDistLine cfg f.sName st line)
      (fun s a s' ha hp => processDistLine_nonempty cfg f.sName s a s' ha hp)
      f.lines st st' h hinv

/-- For a non-empty cumulative series the differencing walk succeeds (the
initial `pop` has something to remove). -/
theorem absCov?_isSome_of_ne_nil (d : List (Int × ℚ)) (hd : d ≠ []) :
    (absCov? d).isSome = true := by
  unfold absCov?
  split
  · next heq =>
    exfalso
    have hnil : sortByKey d = [] := List.reverse_eq_nil_iff.mp heq
    have := sortByKey_length d
    rw [hnil] at this
    exact hd (List.length_eq_zero.mp this.symm)
  · rfl

/-- C10: after a successful parse, every sample present in the cumulative
table has a non-empty series (a key is created only when a non-zero `total`
row was stored), so the absolute-distribution derivation's initial removal
of the highest entry cannot fail. -/
theorem mosdepth_C10 (cfg : Config) (regionFiles globalFiles : List DistFile)
    (st : GState) (h : parseCovDist cfg regionFiles globalFiles = .ok st)
    (s : String) (d : List (Int × ℚ)) (hd : alGet st.cumcov s = some d) :
    d ≠ [] ∧ (absCov? d).isSome = true := by
  have hinv : CumcovNonempty st := by
    refine foldlM_ok_preserves CumcovNonempty (fun st f => processFile cfg st f)
      (fun s a s' ha hp => processFile_nonempty cfg s a s' ha hp)
      (regionFiles ++ globalFiles) GState.init st h ?_
    intro s d hd
    cases hd
  have hne : d ≠ [] := hinv s d hd
  exact ⟨hne, absCov?_isSome_of_ne_nil d hne⟩

/-- A single-file parse whose only line carries an integral fraction, for
exercising the parser without rational normalization. -/
theorem parseSimpleS1 :
    parseCovDist cfg0 [⟨"S1", ["total\t1\t1"]⟩] [] = .ok ⟨[("S1", [(1, 100)])], []⟩ := by
  norm_num +decide [parseCovDist, processFile, processDistLinesFor, processDistLine,
    processFields, containsTab, splitTab, splitTabAux, parseFloat?, parseInt?,
    parseUnsigned?, parseIntNat?, splitDot, allDigits, natOfDigits, alGet, alUpdate,
    GState.init, cfg0, List.find?, List.foldlM, charDigitVals.2.1, bind, Except.bind,
    pure, Except.pure]

/-- C10, witness: the parsed sample's series is non-empty and the walk
succeeds on it. -/
theorem mosdepth_C10_witness :
    ([((1 : Int), (100 : ℚ))] ≠ [])
    ∧ (absCov? [((1 : Int), (100 : ℚ))]).isSome = true :=
  mosdepth_C10 cfg0 [⟨"S1", ["total\t1\t1"]⟩] [] ⟨[("S1", [(1, 100)])], []⟩
    parseSimpleS1 "S1" [(1, 100)] (by rfl)

/-- Dropping the samples whose contig maps became empty does not change the
multiset of (contig, coverage) entries. -/
theorem allContigEntries_filter_ne_nil (X : List (String × List (String × ℚ))) :
    allContigEntries (X.filter (fun p => !p.2.isEmpty)) = allContigEntries X := by
  induction X with
  | nil => rfl
  | cons p X ih =>
    simp only [allContigEntries] at ih
    cases hb : p.2.isEmpty with
    | false =>
      simp [allContigEntries, List.filter_cons, hb, ih]
    | true =>
      have hp' : p.2 = [] := by
        cases h2 : p.2 with
        | nil => rfl
        | cons e es => rw [h2] at hb; simp at hb
      simp [allContigEntries, List.filter_cons, hb, hp', ih]

/-- Filtering every sample's contig map by a name predicate filters the flat
entry list by the same predicate. -/
theorem allContigEntries_map_filter (q : String → Bool)
    (X : List (String × List (String × ℚ))) :
    allContigEntries (X.map (fun p => (p.1, p.2.filter (fun e => q e.1))))
      = (allContigEntries X).filter (fun e => q e.1) := by
  induction X with
  | nil => rfl
  | cons p X ih =>
    simp only [allContigEntries, List.map_cons, List.flatten_cons, List.filter_append] at ih ⊢
    rw [ih]

theorem allContigEntries_filterPerchrom (cfg : Config)
    (perchrom : List (String × List (String × ℚ))) :
    allContigEntries (filterPerchrom cfg perchrom)
      = (allContigEntries perchrom).filter (fun e => contigPasses cfg perchrom e.1) := by
  unfold filterPerchrom
  rw [allContigEntries_filter_ne_nil, allContigEntries_map_filter]

/-- C6: a contig present in the per-contig data is absent from the
cutoff-filtered output (of every sample at once) exactly when its
accumulated coverage over all samples is at most `grandTotal × cutoff`; it
survives exactly when strictly greater. -/
theorem mosdepth_C6 (cfg : Config) (perchrom : List (String × List (String × ℚ)))
    (contig : String) (h : contig ∈ contigsOf perchrom) :
    (contig ∉ contigsOf (filterPerchrom cfg perchrom))
      ↔ totalCovPerContig perchrom contig
          ≤ totalCov perchrom * cfg.perchrom_fraction_cutoff := by
  unfold contigsOf at h ⊢
  rw [allContigEntries_filterPerchrom]
  constructor
  · intro hnot
    by_contra hle
    rw [not_le] at hle
    apply hnot
    obtain ⟨e, he, hfst⟩ := List.mem_map.mp h
    refine List.mem_map.mpr ⟨e, List.mem_filter.mpr ⟨he, ?_⟩, hfst⟩
    unfold contigPasses reqCov
    rw [hfst]
    exact decide_eq_true hle
  · intro hle hmem
    obtain ⟨e, he, hfst⟩ := List.mem_map.mp hmem
    have hp := (List.mem_filter.mp he).2
    unfold contigPasses reqCov at hp
    rw [hfst] at hp
    exact absurd hle (not_le_of_lt (of_decide_eq_true hp))

/-- The cutoff configuration of testable-property scenario 8. -/
def cfgHalf : Config := { cfg0 with perchrom_fraction_cutoff := 1 / 2 }

/-- Per-contig data of scenario 8: totals 10.0 and 0.1, grand total 10.1. -/
def perchrom6 : List (String × List (String × ℚ)) :=
  [("S1", [("A", 10)]), ("S2", [("B", 1 / 10)])]

/-- The arithmetic facts of scenario 8: required coverage is 5.05; contig
`B` falls at or below it, contig `A` exceeds it. -/
theorem perchrom6_facts :
    totalCovPerContig perchrom6 "B" ≤ totalCov perchrom6 * cfgHalf.perchrom_fraction_cutoff
    ∧ ¬ (totalCovPerContig perchrom6 "A"
          ≤ totalCov perchrom6 * cfgHalf.perchrom_fraction_cutoff) := by
  constructor <;>
    norm_num +decide [totalCovPerContig, totalCov, allContigEntries, perchrom6, cfgHalf,
      cfg0, List.filter]

/-- C6, witness: with cutoff 0.5 and contig totals 10.0 and 0.1 out of 10.1,
contig `B` is dropped and contig `A` is retained. -/
theorem mosdepth_C6_witness :
    ("B" ∉ contigsOf (filterPerchrom cfgHalf perchrom6))
    ∧ ("A" ∈ contigsOf (filterPerchrom cfgHalf perchrom6)) :=
  ⟨(mosdepth_C6 cfgHalf perchrom6 "B" (by decide)).mpr perchrom6_facts.1,
   not_not.mp (fun hnot => perchrom6_facts.2 ((mosdepth_C6 cfgHalf perchrom6 "A" (by decide)).mp hnot))⟩

/-- With nonnegative coverages, filtering can only shrink the summed values. -/
theorem sum_map_snd_filter_le (q : String × ℚ → Bool) (l : List (String × ℚ))
    (h : ∀ e ∈ l, 0 ≤ e.2) :
    ((l.filter q).map Prod.snd).sum ≤ (l.map Prod.snd).sum := by
  induction l with
  | nil => simp
  | cons e l ih =>
    have he := h e (List.mem_cons_self e l)
    have ih' := ih (fun x hx => h x (List.mem_cons_of_mem e hx))
    cases hq : q e with
    | false =>
      simp [List.filter_cons, hq]
      linarith
    | true =>
      simp [List.filter_cons, hq]
      linarith

/-- The accumulated coverage of a passing contig is unchanged by the cutoff
filter (a passing contig keeps all its entries in every sample). -/
theorem totalCovPerContig_filterPerchrom (cfg : Config)
    (perchrom : List (String × List (String × ℚ))) (contig : String)
    (hp : contigPasses cfg perchrom contig = true) :
    totalCovPerContig (filterPerchrom cfg perchrom) contig
      = totalCovPerContig perchrom contig := by
  unfold totalCovPerContig
  rw [allContigEntries_filterPerchrom, List.filter_filter]
  congr 1
  congr 1
  apply List.filter_congr
  intro e _
  cases hd : decide (e.1 = contig) with
  | false => simp
  | true =>
    have hec : e.1 = contig := of_decide_eq_true hd
    rw [hec, hp]
    rfl

theorem totalCov_filterPerchrom_le (cfg : Config)
    (perchrom : List (String × List (String × ℚ)))
    (hv : ∀ e ∈ allContigEntries perchrom, 0 ≤ e.2) :
    totalCov (filterPerchrom cfg perchrom) ≤ totalCov perchrom := by
  unfold totalCov
  rw [allContigEntries_filterPerchrom]
  exact sum_map_snd_filter_le _ _ hv

/-- C7: the contig cutoff step is idempotent.  With a nonnegative cutoff and
nonnegative accumulated coverages (cumulative fractions are in `[0,1]`),
re-running the filter on its own output — recomputing per-contig totals, the
grand total and the required coverage from the survivors — rejects nothing
further: the output is unchanged. -/
theorem mosdepth_C7 (cfg : Config) (perchrom : List (String × List (String × ℚ)))
    (hc : 0 ≤ cfg.perchrom_fraction_cutoff)
    (hv : ∀ e ∈ allContigEntries perchrom, 0 ≤ e.2) :
    filterPerchrom cfg (filterPerchrom cfg perchrom) = filterPerchrom cfg perchrom := by
  have hpass : ∀ p ∈ filterPerchrom cfg perchrom, ∀ e ∈ p.2,
      contigPasses cfg (filterPerchrom cfg perchrom) e.1 = true := by
    intro p hp e he
    have hp1 : p ∈ perchrom.map
        (fun p => (p.1, p.2.filter (fun e => contigPasses cfg perchrom e.1))) :=
      (List.mem_filter.mp hp).1
    obtain ⟨p0, hp0, hpe⟩ := List.mem_map.mp hp1
    have hepass : contigPasses cfg perchrom e.1 = true := by
      rw [← hpe] at he
      exact (List.mem_filter.mp he).2
    unfold contigPasses
    apply decide_eq_true
    have h1 := totalCovPerContig_filterPerchrom cfg perchrom e.1 hepass
    have h2 : reqCov cfg (filterPerchrom cfg perchrom) ≤ reqCov cfg perchrom := by
      unfold reqCov
      exact mul_le_mul_of_nonneg_right (totalCov_filterPerchrom_le cfg perchrom hv) hc
    have h3 : reqCov cfg perchrom < totalCovPerContig perchrom e.1 := by
      have := hepass
      unfold contigPasses at this
      exact of_decide_eq_true this
    unfold reqCov at h2 h3 ⊢
    rw [h1]
    exact lt_of_le_of_lt h2 h3
  have hstep : filterPerchrom cfg (filterPerchrom cfg perchrom)
      = ((filterPerchrom cfg perchrom).map
          (fun p => (p.1, p.2.filter
            (fun e => contigPasses cfg (filterPerchrom cfg perchrom) e.1)))).filter
        (fun p => !p.2.isEmpty) := rfl
  rw [hstep]
  have hmap : (filterPerchrom cfg perchrom).map
      (fun p => (p.1, p.2.filter
        (fun e => contigPasses cfg (filterPerchrom cfg perchrom) e.1)))
      = (filterPerchrom cfg perchrom).map id := by
    apply List.map_eq_map_iff.mpr
    intro p hp
    have hfe : p.2.filter (fun e => contigPasses cfg (filterPerchrom cfg perchrom) e.1)
        = p.2 :=
      List.filter_eq_self.mpr (fun e he => hpass p hp e he)
    rw [hfe]
    rfl
  rw [hmap, List.map_id]
  apply List.filter_eq_self.mpr
  intro p hp
  exact (List.mem_filter.mp hp).2

/-- Nonnegativity facts for the scenario data. -/
theorem perchrom6_nonneg :
    0 ≤ cfgHalf.perchrom_fraction_cutoff
    ∧ ∀ e ∈ allContigEntries perchrom6, 0 ≤ e.2 := by
  constructor
  · norm_num [cfgHalf, cfg0]
  · intro e he
    simp only [allContigEntries, perchrom6, List.map_cons, List.map_nil, List.flatten_cons,
      List.flatten_nil, List.append_nil, List.cons_append, List.nil_append,
      List.mem_cons, List.not_mem_nil, or_false, List.mem_singleton] at he
    rcases he with h | h <;> rw [h] <;> norm_num

/-- C7, witness: re-filtering the filtered scenario-8 data changes nothing. -/
theorem mosdepth_C7_witness :
    filterPerchrom cfgHalf (filterPerchrom cfgHalf perchrom6)
      = filterPerchrom cfgHalf perchrom6 :=
  mosdepth_C7 cfgHalf perchrom6 perchrom6_nonneg.1 perchrom6_nonneg.2

/-- The repeated overwrite yields the coverage of some matching contig of
the sample (the last one), unless it is still the initial accumulator. -/
theorem lastMatch_eq_some (f : String → Bool) (entries : List (String × ℚ)) (a : ℚ) :
    ∀ acc : Option ℚ,
      entries.foldl (fun acc e => if f e.1 then some e.2 else acc) acc = some a →
      (∃ c, f c = true ∧ (c, a) ∈ entries) ∨ acc = some a := by
  induction entries with
  | nil => intro acc h; exact Or.inr h
  | cons e entries ih =>
    intro acc h
    rw [List.foldl_cons] at h
    rcases ih _ h with ⟨c, hc, hmem⟩ | hacc
    · exact Or.inl ⟨c, hc, List.mem_cons_of_mem _ hmem⟩
    · by_cases hf : f e.1 = true
      · rw [if_pos hf] at hacc
        injection hacc with hacc
        refine Or.inl ⟨e.1, hf, ?_⟩
        rw [← hacc]
        exact List.mem_cons_self _ _
      · rw [if_neg hf] at hacc
        exact Or.inr hacc

/-- An emitted pair comes from matching contigs with nonzero coverages. -/
theorem xyFor_eq_some (cfg : Config) (entries : List (String × ℚ)) (a b : ℚ)
    (h : xyFor cfg entries = some (a, b)) :
    (∃ cx, xMatches cfg cx = true ∧ (cx, a) ∈ entries)
    ∧ (∃ cy, yMatches cfg cy = true ∧ (cy, b) ∈ entries)
    ∧ a ≠ 0 ∧ b ≠ 0 := by
  unfold xyFor at h
  split at h
  · next a' b' hx hy =>
    split at h
    · next hne =>
      injection h with h
      injection h with h1 h2
      subst h1
      subst h2
      have hx' := lastMatch_eq_some (xMatches cfg) entries a' none hx
      have hy' := lastMatch_eq_some (yMatches cfg) entries b' none hy
      rcases hx' with hx' | hx'
      · rcases hy' with hy' | hy'
        · exact ⟨hx', hy', hne.1, hne.2⟩
        · cases hy'
      · cases hx'
    · cases h
  · cases h

/-- A sample present in the sex-pair output exists in the filtered data and
its pair was produced from its entries. -/
theorem computeXY_alGet (cfg : Config) (fl : List (String × List (String × ℚ)))
    (s : String) (v : ℚ × ℚ) :
    alGet (computeXY cfg fl) s = some v →
    ∃ entries, (s, entries) ∈ fl ∧ xyFor cfg entries = some v := by
  induction fl with
  | nil => intro h; simp [computeXY, alGet, List.find?] at h
  | cons p fl ih =>
    intro h
    cases hxy : xyFor cfg p.2 with
    | none =>
      rw [show computeXY cfg (p :: fl) = computeXY cfg fl by
        simp only [computeXY, hxy]] at h
      obtain ⟨entries, hmem, hx⟩ := ih h
      exact ⟨entries, List.mem_cons_of_mem _ hmem, hx⟩
    | some xy =>
      rw [show computeXY cfg (p :: fl) = (p.1, xy) :: computeXY cfg fl by
        simp only [computeXY, hxy]] at h
      by_cases hps : p.1 = s
      · unfold alGet at h
        rw [List.find?_cons_of_pos _ (by simpa using hps)] at h
        simp only [Option.map_some'] at h
        injection h with h
        refine ⟨p.2, ?_, ?_⟩
        · rw [← hps]
          exact List.mem_cons_self _ _
        · rw [hxy, ← h]
      · unfold alGet at h
        rw [List.find?_cons_of_neg _ (by simpa using hps)] at h
        obtain ⟨entries, hmem, hx⟩ := ih h
        exact ⟨entries, List.mem_cons_of_mem _ hmem, hx⟩

/-- C4, amended: the sex-pair values are the PRE-correction filtered
per-contig values: each emitted sample has matching X/Y contigs whose
accumulated (uncorrected) coverages are exactly the emitted `x` and `y`
(both nonzero), while the corrected per-contig output reports those same
contigs as `x − 1.0` and `y − 1.0`. -/
theorem mosdepth_C4_theorem (cfg : Config) (fl : List (String × List (String × ℚ)))
    (s : String) (a b : ℚ)
    (h : alGet (computeXY cfg fl) s = some (a, b)) :
    ∃ entries, (s, entries) ∈ fl
      ∧ (s, entries.map (fun e => (e.1, e.2 - 1))) ∈ correctPerchrom fl
      ∧ (∃ cx, xMatches cfg cx = true ∧ (cx, a) ∈ entries)
      ∧ (∃ cy, yMatches cfg cy = true ∧ (cy, b) ∈ entries)
      ∧ a ≠ 0 ∧ b ≠ 0 := by
  obtain ⟨entries, hmem, hxy⟩ := computeXY_alGet cfg fl s (a, b) h
  obtain ⟨hx, hy, ha, hb⟩ := xyFor_eq_some cfg entries a b hxy
  refine ⟨entries, hmem, ?_, hx, hy, ha, hb⟩
  exact List.mem_map_of_mem _ hmem

/-- Filtered per-contig data with X and Y accumulated values of 2.0 each. -/
def perchromXY : List (String × List (String × ℚ)) :=
  [("S", [("chrX", 2), ("chrY", 2)])]

/-- Concrete evaluation: the cutoff keeps both contigs, the emitted sex pair
is the uncorrected (2, 2), and the corrected per-contig output reports 1. -/
theorem perchromXY_eval :
    alGet (computeXY cfg0 (filterPerchrom cfg0 perchromXY)) "S" = some (2, 2)
    ∧ alGet (correctPerchrom (filterPerchrom cfg0 perchromXY)) "S"
        = some [("chrX", 1), ("chrY", 1)] := by
  have hfp : filterPerchrom cfg0 perchromXY = perchromXY := by
    norm_num +decide [filterPerchrom, perchromXY, contigPasses, reqCov, totalCov,
      totalCovPerContig, allContigEntries, cfg0, List.filter]
  rw [hfp]
  constructor
  · norm_num +decide [computeXY, xyFor, lastMatch, xMatches, yMatches, strToLower,
      perchromXY, cfg0, alGet, List.find?]
  · norm_num +decide [correctPerchrom, perchromXY, alGet, List.find?]

/-- C4, counterexample: the sex-pair output for sample `S` is (2, 2) — the
pre-correction values — while the per-contig average output after the 1.0
correction reports those contigs as 1; the claimed equality fails. -/
theorem mosdepth_C4_counterexample :
    alGet (computeXY cfg0 (filterPerchrom cfg0 perchromXY)) "S" = some (2, 2)
    ∧ alGet (correctPerchrom (filterPerchrom cfg0 perchromXY)) "S"
        = some [("chrX", 1), ("chrY", 1)]
    ∧ ((2 : ℚ), (2 : ℚ)) ≠ ((1 : ℚ), (1 : ℚ)) := by
  refine ⟨perchromXY_eval.1, perchromXY_eval.2, ?_⟩
  intro h
  injection h with h1 h2
  norm_num at h1

/-- C4, witness. -/
theorem mosdepth_C4_witness :
    ∃ entries, ("S", entries) ∈ filterPerchrom cfg0 perchromXY
      ∧ ("S", entries.map (fun e => (e.1, e.2 - 1)))
          ∈ correctPerchrom (filterPerchrom cfg0 perchromXY)
      ∧ (∃ cx, xMatches cfg0 cx = true ∧ (cx, (2 : ℚ)) ∈ entries)
      ∧ (∃ cy, yMatches cfg0 cy = true ∧ (cy, (2 : ℚ)) ∈ entries)
      ∧ (2 : ℚ) ≠ 0 ∧ (2 : ℚ) ≠ 0 :=
  mosdepth_C4_theorem cfg0 (filterPerchrom cfg0 perchromXY) "S" 2 2 perchromXY_eval.1

end Mosdepth
